import Mathlib

/-!
Verification of the salon management system availability engine
(the object literal timeSlotUtils in the React source).

The engine is a set of pure functions over wall-clock time strings.
JavaScript primitives are modelled explicitly:
number-to-decimal-string conversion, padStart with the digit zero,
String.prototype.split on a single separator character, and the
Number conversion restricted to all-digit strings, which is the only
shape of string the engine ever feeds to it under well-formed inputs.
Minutes and durations are natural numbers; all claims quantify over
non-negative integer minute values only.
-/

/-- The decimal digit character for a value below ten, code 48 plus the value. -/
def digitChar (d : Nat) : Char := Char.ofNat (48 + d)

/-- Fuel-driven accumulator loop producing the decimal digits of a number,
most significant first, in front of acc. With fuel above n this is total. -/
def toDigitsAux : Nat → Nat → List Char → List Char
  | 0, _, acc => acc
  | fuel + 1, n, acc =>
    if n < 10 then digitChar n :: acc
    else toDigitsAux fuel (n / 10) (digitChar (n % 10) :: acc)

/-- Models the JavaScript expression n.toString(): decimal digits of n. -/
def natToString (n : Nat) : String := ⟨toDigitsAux (n + 1) n []⟩

/-- Models s.padStart(2, the digit zero): left-pad to length two. -/
def padStart2 (s : String) : String :=
  if 2 ≤ s.data.length then s else ⟨List.replicate (2 - s.data.length) '0' ++ s.data⟩

/-- Horner evaluation of a digit-character list starting from v. -/
def foldParse (v : Nat) (cs : List Char) : Nat :=
  cs.foldl (fun a c => a * 10 + (c.toNat - 48)) v

/-- Models the JavaScript Number conversion on the strings the engine produces:
a non-empty all-digit string parses to its decimal value; anything else is
rejected (in JavaScript it would be NaN or need coercion rules no claim
exercises, since every claim hypothesises well-formed time strings). -/
def parseNat (s : String) : Option Nat :=
  if s.data ≠ [] ∧ s.data.all Char.isDigit then some (foldParse 0 s.data) else none

/-- Splitter loop: cur holds the current field reversed. -/
def splitAux (sep : Char) : List Char → List Char → List (List Char)
  | [], cur => [cur.reverse]
  | x :: xs, cur =>
    if x = sep then cur.reverse :: splitAux sep xs []
    else splitAux sep xs (x :: cur)

/-- Models s.split(sep) for a one-character separator. -/
def jsSplit (sep : Char) (s : String) : List String :=
  (splitAux sep s.data []).map fun l => ⟨l⟩

namespace timeSlotUtils

/-- Source: timeToMinutes. Splits on the colon, converts both fields with
Number, and returns hours times sixty plus minutes. Malformed strings give
NaN in JavaScript; the model returns zero there, and every claim carries a
well-formedness hypothesis keeping those inputs out of scope. -/
def timeToMinutes (timeString : String) : Nat :=
  match (jsSplit ':' timeString).map parseNat with
  | [some hours, some minutes] => hours * 60 + minutes
  | _ => 0

/-- Source: minutesToTime. Floor-divides by sixty, takes the remainder, and
joins the two zero-padded decimal renderings with a colon. -/
def minutesToTime (minutes : Nat) : String :=
  let hours := minutes / 60
  let mins := minutes % 60
  padStart2 (natToString hours) ++ ":" ++ padStart2 (natToString mins)

/-- Source: doTimeRangesOverlap. Strict comparison on both sides, so
half-open intervals touching at one endpoint do not overlap. -/
def doTimeRangesOverlap (start1 end1 start2 end2 : String) : Bool :=
  let start1Min := timeToMinutes start1
  let end1Min := timeToMinutes end1
  let start2Min := timeToMinutes start2
  let end2Min := timeToMinutes end2
  decide (start1Min < end2Min ∧ start2Min < end1Min)

/-- Source: getAppointmentEndTime. -/
def getAppointmentEndTime (startTime : String) (durationMinutes : Nat) : String :=
  let startMinutes := timeToMinutes startTime
  let endMinutes := startMinutes + durationMinutes
  minutesToTime endMinutes

end timeSlotUtils

/-- The fields of the Appointment record the engine reads. endTime is an
option: the source guards it with a falsiness check, so a missing field and
the empty string both route to the sixty-minute fallback. -/
structure Appointment where
  staffId : String
  date : String
  time : String
  endTime : Option String
  status : String
deriving DecidableEq

/-- One day of the weekly availability map. -/
structure DayAvailability where
  start : String
  «end» : String
  available : Bool
deriving DecidableEq

/-- The fields of StaffMember the engine reads; the availability map is an
association list from lowercase English day names. -/
structure StaffMember where
  id : String
  availability : List (String × DayAvailability)
deriving DecidableEq

/-- The field of Service the engine reads. -/
structure Service where
  duration : Nat
deriving DecidableEq

namespace timeSlotUtils

/-- The expression appointment.endTime or-else the sixty-minute fallback
inside isTimeSlotAvailable: the JavaScript or-operator takes the fallback on
any falsy left operand, so both a missing endTime and the empty string give
getAppointmentEndTime of the start time with sixty minutes. -/
def effectiveEndTime (a : Appointment) : String :=
  match a.endTime with
  | some e => if e = "" then getAppointmentEndTime a.time 60 else e
  | none => getAppointmentEndTime a.time 60

/-- The body of the loop in isTimeSlotAvailable: an appointment conflicts
when staff and date match, the status is not cancelled, and the ranges
overlap. -/
def conflictsWith (proposedStartTime proposedEndTime staffId date : String)
    (a : Appointment) : Bool :=
  decide (a.staffId = staffId) && decide (a.date = date) &&
    decide (a.status ≠ "cancelled") &&
    doTimeRangesOverlap proposedStartTime proposedEndTime a.time (effectiveEndTime a)

/-- Source: isTimeSlotAvailable. Returns false on the first conflicting
appointment, true when none conflicts; the for-loop with early return is the
conjunction over the list. -/
def isTimeSlotAvailable (proposedStartTime : String) (serviceDuration : Nat)
    (existingAppointments : List Appointment) (staffId date : String) : Bool :=
  let proposedEndTime := getAppointmentEndTime proposedStartTime serviceDuration
  existingAppointments.all fun a =>
    !conflictsWith proposedStartTime proposedEndTime staffId date a

/-- Day names indexed by the value of the Zeller congruence, which counts
from Saturday. -/
def dayNames : List String :=
  ["saturday", "sunday", "monday", "tuesday", "wednesday", "thursday", "friday"]

/-- Models the JavaScript weekday derivation in generateAvailableTimeSlots:
new Date(date) parses an ISO YYYY-MM-DD string at UTC midnight, and
toLocaleDateString with the long weekday option renders the lowercase day
name. We compute the weekday of the civil date with the Zeller congruence,
which is the rendered name whenever the process timezone preserves the UTC
calendar day. Malformed dates yield the empty string, which no availability
map key matches. -/
def dayNameOf (date : String) : String :=
  match (jsSplit '-' date).map parseNat with
  | [some y, some m, some d] =>
    let yy := if m ≤ 2 then y - 1 else y
    let mm := if m ≤ 2 then m + 12 else m
    let K := yy % 100
    let J := yy / 100
    let h := (d + 13 * (mm + 1) / 5 + K + K / 4 + J / 4 + 5 * J) % 7
    dayNames.getD h ""
  | _ => ""

/-- The candidate starts enumerated by the for-loop in
generateAvailableTimeSlots: from the day start, stepping thirty minutes,
strictly before the day end. The k-th iterate exists exactly when
startMin + 30 k is below endMin, so the loop visits the first
(endMin - startMin + 29) / 30 multiples. -/
def slotCandidates (startMin endMin : Nat) : List Nat :=
  (List.range ((endMin - startMin + 29) / 30)).map fun k => startMin + 30 * k

/-- Source: generateAvailableTimeSlots. Looks up the weekday in the
availability map; absent day or false available flag give the empty list
(the optional-chaining falsiness test). Otherwise each thirty-minute
candidate is kept when the service still fits before the day end and the
slot passes isTimeSlotAvailable. The Date arithmetic of the source is
carried out on minute counts; toTimeString sliced to five characters is
minutesToTime for values below one day, which every candidate is when the
day end is a well-formed time. -/
def generateAvailableTimeSlots (date : String) (staffMember : StaffMember)
    (service : Service) (existingAppointments : List Appointment) : List String :=
  let dayName := dayNameOf date
  match staffMember.availability.lookup dayName with
  | none => []
  | some availability =>
    if !availability.available then []
    else
      let startMin := timeToMinutes availability.start
      let endMin := timeToMinutes availability.«end»
      let serviceDuration := service.duration
      (slotCandidates startMin endMin).filterMap fun t =>
        if decide (t + serviceDuration ≤ endMin) &&
            isTimeSlotAvailable (minutesToTime t) serviceDuration
              existingAppointments staffMember.id date
        then some (minutesToTime t)
        else none

/-- A well-formed HH:MM clock string: the zero-padded rendering of some
minute count within one day. -/
def TimeWF (t : String) : Prop := ∃ m, m < 1440 ∧ t = minutesToTime m

/-- The hour field of a clock string, read back with Number. -/
def hourOf (s : String) : Nat :=
  match jsSplit ':' s with
  | h :: _ => (parseNat h).getD 0
  | [] => 0

end timeSlotUtils

section RoundTrip

lemma digitChar_toNat (d : Nat) (h : d < 10) : (digitChar d).toNat = 48 + d := by
  interval_cases d <;> decide

lemma digitChar_isDigit (d : Nat) (h : d < 10) : (digitChar d).isDigit = true := by
  interval_cases d <;> decide

lemma toDigitsAux_append : ∀ (fuel n : Nat) (acc : List Char),
    toDigitsAux fuel n acc = toDigitsAux fuel n [] ++ acc := by
  intro fuel
  induction fuel with
  | zero => intro n acc; simp [toDigitsAux]
  | succ fuel ih =>
    intro n acc
    by_cases h : n < 10
    · simp [toDigitsAux, h]
    · simp only [toDigitsAux, if_neg h]
      rw [ih (n / 10) (digitChar (n % 10) :: acc), ih (n / 10) [digitChar (n % 10)]]
      simp

lemma foldParse_cons (v : Nat) (c : Char) (cs : List Char) :
    foldParse v (c :: cs) = foldParse (v * 10 + (c.toNat - 48)) cs := rfl

lemma foldParse_append (v : Nat) (a b : List Char) :
    foldParse v (a ++ b) = foldParse (foldParse v a) b := by
  simp [foldParse, List.foldl_append]

lemma toDigitsAux_spec : ∀ (fuel n : Nat), n < fuel →
    toDigitsAux fuel n [] ≠ [] ∧ (∀ c ∈ toDigitsAux fuel n [], c.isDigit = true) ∧
      foldParse 0 (toDigitsAux fuel n []) = n := by
  intro fuel
  induction fuel with
  | zero => intro n h; exact absurd h (Nat.not_lt_zero n)
  | succ fuel ih =>
    intro n h
    by_cases h10 : n < 10
    · simp only [toDigitsAux, if_pos h10]
      refine ⟨by simp, ?_, ?_⟩
      · intro c hc
        simp only [List.mem_singleton] at hc
        subst hc
        exact digitChar_isDigit n h10
      · rw [foldParse_cons]
        simp [foldParse, digitChar_toNat n h10]
    · have hdiv : n / 10 < fuel := by
        have h1 : n / 10 < n := Nat.div_lt_self (by omega) (by omega)
        omega
      obtain ⟨hne, hdig, hval⟩ := ih (n / 10) hdiv
      simp only [toDigitsAux, if_neg h10]
      rw [toDigitsAux_append fuel (n / 10) [digitChar (n % 10)]]
      refine ⟨by simp, ?_, ?_⟩
      · intro c hc
        rcases List.mem_append.mp hc with hc | hc
        · exact hdig c hc
        · simp only [List.mem_singleton] at hc
          subst hc
          exact digitChar_isDigit (n % 10) (Nat.mod_lt n (by omega))
      · rw [foldParse_append, hval, foldParse_cons]
        simp only [foldParse, List.foldl_nil]
        rw [digitChar_toNat (n % 10) (Nat.mod_lt n (by omega))]
        omega

lemma natToString_data_ne (n : Nat) : (natToString n).data ≠ [] :=
  (toDigitsAux_spec (n + 1) n (Nat.lt_succ_self n)).1

lemma natToString_data_digits (n : Nat) :
    ∀ c ∈ (natToString n).data, c.isDigit = true :=
  (toDigitsAux_spec (n + 1) n (Nat.lt_succ_self n)).2.1

lemma natToString_data_val (n : Nat) : foldParse 0 (natToString n).data = n :=
  (toDigitsAux_spec (n + 1) n (Nat.lt_succ_self n)).2.2

lemma foldParse_replicate_zero (k : Nat) (cs : List Char) :
    foldParse 0 (List.replicate k '0' ++ cs) = foldParse 0 cs := by
  induction k with
  | zero => simp
  | succ k ih =>
    rw [List.replicate_succ, List.cons_append, foldParse_cons]
    simpa using ih

lemma pad_data_ne (n : Nat) : (padStart2 (natToString n)).data ≠ [] := by
  unfold padStart2
  split
  · exact natToString_data_ne n
  · simp only [String.data]
    intro h
    exact natToString_data_ne n (List.append_eq_nil.mp h).2

lemma pad_data_digits (n : Nat) :
    ∀ c ∈ (padStart2 (natToString n)).data, c.isDigit = true := by
  unfold padStart2
  split
  · exact natToString_data_digits n
  · intro c hc
    simp only [String.data] at hc
    rcases List.mem_append.mp hc with hc | hc
    · rw [List.eq_of_mem_replicate hc]
      decide
    · exact natToString_data_digits n c hc

lemma pad_data_val (n : Nat) : foldParse 0 (padStart2 (natToString n)).data = n := by
  unfold padStart2
  split
  · exact natToString_data_val n
  · simp only [String.data]
    rw [foldParse_replicate_zero]
    exact natToString_data_val n

lemma parseNat_pad (n : Nat) : parseNat (padStart2 (natToString n)) = some n := by
  unfold parseNat
  rw [if_pos]
  · rw [pad_data_val]
  · exact ⟨pad_data_ne n, List.all_eq_true.mpr fun c hc => pad_data_digits n c hc⟩

lemma pad_not_colon (n : Nat) : ':' ∉ (padStart2 (natToString n)).data := by
  intro hmem
  have := pad_data_digits n ':' hmem
  simp at this

lemma splitAux_of_not_mem (sep : Char) : ∀ (l cur : List Char), sep ∉ l →
    splitAux sep l cur = [cur.reverse ++ l] := by
  intro l
  induction l with
  | nil => intro cur h; simp [splitAux]
  | cons x xs ih =>
    intro cur h
    rw [List.mem_cons, not_or] at h
    rw [splitAux, if_neg fun hx => h.1 hx.symm, ih (x :: cur) h.2]
    simp

lemma splitAux_append_sep (sep : Char) : ∀ (a b cur : List Char), sep ∉ a →
    splitAux sep (a ++ sep :: b) cur = (cur.reverse ++ a) :: splitAux sep b [] := by
  intro a
  induction a with
  | nil => intro b cur h; simp [splitAux]
  | cons x xs ih =>
    intro b cur h
    rw [List.mem_cons, not_or] at h
    rw [List.cons_append, splitAux, if_neg fun hx => h.1 hx.symm, ih b (x :: cur) h.2]
    simp

namespace timeSlotUtils

lemma data_minutesToTime (m : Nat) : (minutesToTime m).data =
    (padStart2 (natToString (m / 60))).data ++
      ':' :: (padStart2 (natToString (m % 60))).data := by
  show ((padStart2 (natToString (m / 60)) ++ ":") ++
      padStart2 (natToString (m % 60))).data = _
  rw [String.data_append, String.data_append]
  simp

lemma jsSplit_colon_minutesToTime (m : Nat) :
    jsSplit ':' (minutesToTime m) =
      [padStart2 (natToString (m / 60)), padStart2 (natToString (m % 60))] := by
  unfold jsSplit
  rw [data_minutesToTime,
    splitAux_append_sep ':' _ _ [] (pad_not_colon (m / 60)),
    splitAux_of_not_mem ':' _ [] (pad_not_colon (m % 60))]
  simp

/-- Round trip: reading back the rendered time string recovers the minute
count, for every natural number of minutes, also past one day. -/
lemma timeToMinutes_minutesToTime (m : Nat) :
    timeToMinutes (minutesToTime m) = m := by
  unfold timeToMinutes
  rw [jsSplit_colon_minutesToTime]
  simp only [List.map_cons, List.map_nil, parseNat_pad]
  show m / 60 * 60 + m % 60 = m
  omega

lemma hourOf_minutesToTime (m : Nat) : hourOf (minutesToTime m) = m / 60 := by
  unfold hourOf
  rw [jsSplit_colon_minutesToTime]
  simp [parseNat_pad]

lemma minutesToTime_ne_empty (m : Nat) : minutesToTime m ≠ "" := by
  intro h
  have hd := congrArg String.data h
  rw [data_minutesToTime] at hd
  exact List.append_ne_nil_of_right_ne_nil _ (by simp) hd

end timeSlotUtils

end RoundTrip

namespace timeSlotUtils

/-- Written from the claim wording, for the refinement comparison against
the source: the effective end of an appointment, in minutes, is its stored
endTime when present and otherwise its start time plus sixty minutes. -/
def specEffectiveEndMin (a : Appointment) : Nat :=
  match a.endTime with
  | some e => timeToMinutes e
  | none => timeToMinutes a.time + 60

lemma timeToMinutes_getAppointmentEndTime (s : String) (d : Nat) :
    timeToMinutes (getAppointmentEndTime s d) = timeToMinutes s + d := by
  simp [getAppointmentEndTime, timeToMinutes_minutesToTime]

/-- When a stored endTime is a well-formed clock string, the falsiness
fallback of the source agrees with the effective end the claim describes. -/
lemma effectiveEndMin_eq (a : Appointment)
    (h : ∀ e, a.endTime = some e → TimeWF e) :
    timeToMinutes (effectiveEndTime a) = specEffectiveEndMin a := by
  unfold effectiveEndTime specEffectiveEndMin
  cases hE : a.endTime with
  | none => simp [timeToMinutes_getAppointmentEndTime]
  | some e =>
    obtain ⟨m, hm, rfl⟩ := h e hE
    simp [minutesToTime_ne_empty m]

lemma conflictsWith_eq_true (ps : String) (dur : Nat) (sid d : String)
    (a : Appointment) (h : ∀ e, a.endTime = some e → TimeWF e) :
    conflictsWith ps (getAppointmentEndTime ps dur) sid d a = true ↔
      a.staffId = sid ∧ a.date = d ∧ a.status ≠ "cancelled" ∧
        timeToMinutes a.time < timeToMinutes ps + dur ∧
        timeToMinutes ps < specEffectiveEndMin a := by
  unfold conflictsWith doTimeRangesOverlap
  simp only [Bool.and_eq_true, decide_eq_true_eq,
    timeToMinutes_getAppointmentEndTime, effectiveEndMin_eq a h]
  tauto

lemma isTimeSlotAvailable_eq_false_iff (ps : String) (dur : Nat)
    (appts : List Appointment) (sid d : String)
    (h : ∀ a ∈ appts, ∀ e, a.endTime = some e → TimeWF e) :
    isTimeSlotAvailable ps dur appts sid d = false ↔
      ∃ a ∈ appts, a.staffId = sid ∧ a.date = d ∧ a.status ≠ "cancelled" ∧
        timeToMinutes a.time < timeToMinutes ps + dur ∧
        timeToMinutes ps < specEffectiveEndMin a := by
  unfold isTimeSlotAvailable
  rw [← Bool.not_eq_true, List.all_eq_true]
  simp only [Bool.not_eq_true', Bool.not_eq_false]
  push_neg
  constructor
  · rintro ⟨a, ha, hconf⟩
    have hc2 : conflictsWith ps (getAppointmentEndTime ps dur) sid d a = true := by
      simpa using hconf
    exact ⟨a, ha, (conflictsWith_eq_true ps dur sid d a (h a ha)).mp hc2⟩
  · rintro ⟨a, ha, hprop⟩
    have hc2 := (conflictsWith_eq_true ps dur sid d a (h a ha)).mpr hprop
    exact ⟨a, ha, by simpa using hc2⟩

end timeSlotUtils

section Fixtures

open timeSlotUtils

/-- Monday working hours nine to five. -/
def mondayAv : DayAvailability :=
  { start := "09:00", «end» := "17:00", available := true }

/-- A staff member working Mondays nine to five. -/
def mondayStaff : StaffMember :=
  { id := "s1", availability := [("monday", mondayAv)] }

/-- Sunday hours marked unavailable. -/
def sundayAv : DayAvailability :=
  { start := "09:00", «end» := "17:00", available := false }

/-- A staff member with Sunday marked unavailable and no other day present. -/
def sundayStaff : StaffMember :=
  { id := "s1", availability := [("sunday", sundayAv)] }

/-- Monday hours starting off the half-hour grid. -/
def quarterAv : DayAvailability :=
  { start := "09:15", «end» := "10:15", available := true }

/-- A staff member whose Monday starts at a quarter past the hour. -/
def quarterStaff : StaffMember :=
  { id := "s2", availability := [("monday", quarterAv)] }

/-- A sixty-minute service. -/
def service60 : Service := { duration := 60 }

/-- A thirty-minute service. -/
def service30 : Service := { duration := 30 }

/-- A confirmed appointment nine to ten. -/
def apptA : Appointment :=
  { staffId := "s1", date := "2000-01-03", time := "09:00",
    endTime := some "10:00", status := "confirmed" }

/-- A cancelled appointment occupying nine to ten. -/
def cancApt : Appointment :=
  { staffId := "s1", date := "2000-01-03", time := "09:00",
    endTime := some "10:00", status := "cancelled" }

end Fixtures

namespace timeSlotUtils

/-- Claim C1: for well-formed proposed start, positive duration, and
well-formed appointment time strings, isTimeSlotAvailable returns false
exactly when some appointment with the given staff and date and a
non-cancelled status has an effective interval, ending at its endTime when
present and otherwise sixty minutes after its start, overlapping the
half-open proposed interval under the strict test on both sides; and it
returns true on the empty list. -/
theorem claim_C1 (ps : String) (dur : Nat) (appts : List Appointment)
    (sid d : String) (hps : TimeWF ps) (hdur : 0 < dur)
    (h : ∀ a ∈ appts, TimeWF a.time ∧ ∀ e, a.endTime = some e → TimeWF e) :
    (isTimeSlotAvailable ps dur appts sid d = false ↔
      ∃ a ∈ appts, a.staffId = sid ∧ a.date = d ∧ a.status ≠ "cancelled" ∧
        timeToMinutes a.time < timeToMinutes ps + dur ∧
        timeToMinutes ps < specEffectiveEndMin a) ∧
    isTimeSlotAvailable ps dur [] sid d = true :=
  ⟨isTimeSlotAvailable_eq_false_iff ps dur appts sid d fun a ha => (h a ha).2,
    rfl⟩

theorem claim_C1_witness :
    (isTimeSlotAvailable "09:30" 30 [apptA] "s1" "2000-01-03" = false ↔
      ∃ a ∈ [apptA], a.staffId = "s1" ∧ a.date = "2000-01-03" ∧
        a.status ≠ "cancelled" ∧
        timeToMinutes a.time < timeToMinutes "09:30" + 30 ∧
        timeToMinutes "09:30" < specEffectiveEndMin a) ∧
    isTimeSlotAvailable "09:30" 30 [] "s1" "2000-01-03" = true :=
  claim_C1 "09:30" 30 [apptA] "s1" "2000-01-03"
    ⟨570, by decide, by decide⟩ (by decide)
    (fun a ha => by
      simp only [List.mem_singleton] at ha
      subst ha
      refine ⟨⟨540, by decide, by decide⟩, fun e he => ?_⟩
      have he2 : some "10:00" = some e := he
      injection he2 with h10
      subst h10
      exact ⟨600, by decide, by decide⟩)

/-- Claim C2: doTimeRangesOverlap is the strict interval-intersection test
on minute values; two back-to-back ranges do not overlap, and any range
with start strictly before end overlaps itself. -/
theorem claim_C2 (s1 e1 s2 e2 : String)
    (h1 : TimeWF s1) (h2 : TimeWF e1) (h3 : TimeWF s2) (h4 : TimeWF e2) :
    (doTimeRangesOverlap s1 e1 s2 e2 = true ↔
      timeToMinutes s1 < timeToMinutes e2 ∧
        timeToMinutes s2 < timeToMinutes e1) ∧
    doTimeRangesOverlap "09:00" "10:00" "10:00" "11:00" = false ∧
    (timeToMinutes s1 < timeToMinutes e1 →
      doTimeRangesOverlap s1 e1 s1 e1 = true) := by
  refine ⟨by simp [doTimeRangesOverlap], by decide, fun h => ?_⟩
  simp only [doTimeRangesOverlap, decide_eq_true_eq]
  exact ⟨h, h⟩

theorem claim_C2_witness :
    (doTimeRangesOverlap "09:00" "10:00" "09:30" "10:30" = true ↔
      timeToMinutes "09:00" < timeToMinutes "10:30" ∧
        timeToMinutes "09:30" < timeToMinutes "10:00") ∧
    doTimeRangesOverlap "09:00" "10:00" "10:00" "11:00" = false ∧
    (timeToMinutes "09:00" < timeToMinutes "10:00" →
      doTimeRangesOverlap "09:00" "10:00" "09:00" "10:00" = true) :=
  claim_C2 "09:00" "10:00" "09:30" "10:30"
    ⟨540, by decide, by decide⟩ ⟨600, by decide, by decide⟩
    ⟨570, by decide, by decide⟩ ⟨630, by decide, by decide⟩

/-- Claim C5: cancelled appointments never affect isTimeSlotAvailable:
inserting one anywhere in the list leaves the result unchanged, and a
single cancelled appointment blocking its own slot still yields true. -/
theorem claim_C5 (ps : String) (dur : Nat) (sid d : String)
    (pre post : List Appointment) (a : Appointment)
    (hc : a.status = "cancelled") :
    (isTimeSlotAvailable ps dur (pre ++ a :: post) sid d =
      isTimeSlotAvailable ps dur (pre ++ post) sid d) ∧
    isTimeSlotAvailable "09:00" 60 [a] a.staffId a.date = true := by
  have hfalse : ∀ pe, conflictsWith ps pe sid d a = false := by
    intro pe
    simp [conflictsWith, hc]
  constructor
  · simp [isTimeSlotAvailable, List.all_append, hfalse]
  · simp [isTimeSlotAvailable, conflictsWith, hc]

theorem claim_C5_witness :
    (isTimeSlotAvailable "10:00" 30 ([apptA] ++ cancApt :: []) "s1" "2000-01-03" =
      isTimeSlotAvailable "10:00" 30 ([apptA] ++ []) "s1" "2000-01-03") ∧
    isTimeSlotAvailable "09:00" 60 [cancApt] cancApt.staffId cancApt.date = true :=
  claim_C5 "10:00" 30 "s1" "2000-01-03" [apptA] [] cancApt rfl

/-- Claim C9: an appointment whose endTime is the empty string is treated
by isTimeSlotAvailable exactly like one with no endTime at all, because the
fallback fires on any falsy value. -/
theorem claim_C9 (ps : String) (dur : Nat) (sid d : String)
    (pre post : List Appointment) (a : Appointment) :
    isTimeSlotAvailable ps dur
        (pre ++ { a with endTime := some "" } :: post) sid d =
      isTimeSlotAvailable ps dur
        (pre ++ { a with endTime := none } :: post) sid d := by
  have hkey : ∀ pe, conflictsWith ps pe sid d { a with endTime := some "" } =
      conflictsWith ps pe sid d { a with endTime := none } := by
    intro pe
    simp [conflictsWith, effectiveEndTime]
  simp [isTimeSlotAvailable, List.all_append, hkey]

/-- Claim C8: the conversion round trip on any minute value within one day. -/
theorem claim_C8 (m : Nat) (h : m ≤ 1439) :
    timeToMinutes (minutesToTime m) = m :=
  timeToMinutes_minutesToTime m

theorem claim_C8_witness : timeToMinutes (minutesToTime 540) = 540 :=
  claim_C8 540 (by decide)

/-- Claim C10: minutesToTime never reduces modulo one day: the round trip
holds for every non-negative minute count, values of at least 1440 render
with an hour field of at least 24, the example 1530 renders as 25:30, and
getAppointmentEndTime on a booking running past midnight therefore yields
such an over-24-hour string instead of wrapping. -/
theorem claim_C10 (m : Nat) :
    timeToMinutes (minutesToTime m) = m ∧
    (1440 ≤ m → 24 ≤ hourOf (minutesToTime m)) ∧
    minutesToTime 1530 = "25:30" ∧
    (∀ s dur, 1440 ≤ timeToMinutes s + dur →
      24 ≤ hourOf (getAppointmentEndTime s dur)) := by
  refine ⟨timeToMinutes_minutesToTime m, fun h => ?_, by decide,
    fun s dur h => ?_⟩
  · rw [hourOf_minutesToTime]
    omega
  · simp only [getAppointmentEndTime, hourOf_minutesToTime]
    omega

theorem claim_C10_witness :
    timeToMinutes (minutesToTime 1530) = 1530 ∧
    24 ≤ hourOf (minutesToTime 1530) ∧
    24 ≤ hourOf (getAppointmentEndTime "23:30" 120) :=
  ⟨(claim_C10 1530).1, (claim_C10 1530).2.1 (by decide),
    (claim_C10 0).2.2.2 "23:30" 120 (by decide)⟩

/-- Every member of the generated slot list is the rendering of a
thirty-minute multiple above the day start that fits, with the service
duration, within the day end. -/
lemma mem_generateAvailableTimeSlots (date : String) (staffMember : StaffMember)
    (service : Service) (appts : List Appointment) (av : DayAvailability)
    (s : String)
    (hav : staffMember.availability.lookup (dayNameOf date) = some av)
    (hs : s ∈ generateAvailableTimeSlots date staffMember service appts) :
    ∃ k, s = minutesToTime (timeToMinutes av.start + 30 * k) ∧
      timeToMinutes av.start + 30 * k + service.duration ≤
        timeToMinutes av.«end» := by
  simp only [generateAvailableTimeSlots, hav] at hs
  by_cases hb : av.available
  · simp only [hb, Bool.not_true, Bool.false_eq_true, if_false,
      List.mem_filterMap] at hs
    obtain ⟨t, ht, hf⟩ := hs
    simp only [slotCandidates, List.mem_map, List.mem_range] at ht
    obtain ⟨k, hk, rfl⟩ := ht
    split at hf
    · next hcond =>
      rw [Bool.and_eq_true, decide_eq_true_eq] at hcond
      obtain rfl : minutesToTime (timeToMinutes av.start + 30 * k) = s :=
        Option.some_inj.mp hf
      exact ⟨k, rfl, hcond.1⟩
    · exact absurd hf (by simp)
  · rw [Bool.not_eq_true] at hb
    simp [hb] at hs

/-- Claim C3 (amended): any staff member whose availability maps the
weekday of the date to nine-to-five available hours, with a sixty-minute
service and no bookings, yields exactly the fifteen half-hour starts from
nine in the morning to four in the afternoon. -/
theorem claim_C3 (date : String) (staffMember : StaffMember)
    (hav : staffMember.availability.lookup (dayNameOf date) = some mondayAv) :
    generateAvailableTimeSlots date staffMember service60 [] =
      ["09:00", "09:30", "10:00", "10:30", "11:00", "11:30", "12:00", "12:30",
        "13:00", "13:30", "14:00", "14:30", "15:00", "15:30", "16:00"] := by
  have hempty : ∀ ps dur sid d, isTimeSlotAvailable ps dur [] sid d = true :=
    fun _ _ _ _ => rfl
  simp only [generateAvailableTimeSlots, hav, hempty, Bool.and_true]
  decide

theorem claim_C3_witness :
    generateAvailableTimeSlots "2000-01-03" mondayStaff service60 [] =
      ["09:00", "09:30", "10:00", "10:30", "11:00", "11:30", "12:00", "12:30",
        "13:00", "13:30", "14:00", "14:30", "15:00", "15:30", "16:00"] :=
  claim_C3 "2000-01-03" mondayStaff (by decide)

/-- Claim C3, counterexample to the stated count: the returned sequence has
fifteen elements, not sixteen. -/
theorem claim_C3_cex :
    (generateAvailableTimeSlots "2000-01-03" mondayStaff service60 []).length
        = 15 ∧
    (generateAvailableTimeSlots "2000-01-03" mondayStaff service60 []).length
        ≠ 16 := by
  decide

/-- Claim C4: every returned start satisfies the fit check: its minute
value plus the service duration is at most the minute value of the day end. -/
theorem claim_C4 (date : String) (staffMember : StaffMember)
    (service : Service) (appts : List Appointment) (av : DayAvailability)
    (s : String)
    (hav : staffMember.availability.lookup (dayNameOf date) = some av)
    (hs : s ∈ generateAvailableTimeSlots date staffMember service appts) :
    timeToMinutes s + service.duration ≤ timeToMinutes av.«end» := by
  obtain ⟨k, rfl, hle⟩ :=
    mem_generateAvailableTimeSlots date staffMember service appts av s hav hs
  rw [timeToMinutes_minutesToTime]
  exact hle

theorem claim_C4_witness :
    timeToMinutes "09:00" + service60.duration ≤ timeToMinutes mondayAv.«end» :=
  claim_C4 "2000-01-03" mondayStaff service60 [] mondayAv "09:00"
    (by decide) (by decide)

/-- Claim C6: an absent weekday key or a false available flag yields the
empty slot list, whatever the service and the appointment list. -/
theorem claim_C6 (date : String) (staffMember : StaffMember)
    (service : Service) (appts : List Appointment)
    (h : staffMember.availability.lookup (dayNameOf date) = none ∨
      ∃ av, staffMember.availability.lookup (dayNameOf date) = some av ∧
        av.available = false) :
    generateAvailableTimeSlots date staffMember service appts = [] := by
  unfold generateAvailableTimeSlots
  rcases h with h | ⟨av, h, hav⟩
  · simp [h]
  · simp [h, hav]

theorem claim_C6_witness :
    generateAvailableTimeSlots "2000-01-02" sundayStaff service60 [] = [] :=
  claim_C6 "2000-01-02" sundayStaff service60 []
    (Or.inr ⟨sundayAv, by decide, rfl⟩)

/-- Claim C7 (amended): every returned start lies on the thirty-minute grid
anchored at the day start: it renders the start minute plus a multiple of
thirty. The spacing is the fixed constant thirty, independent of the
service duration. -/
theorem claim_C7 (date : String) (staffMember : StaffMember)
    (service : Service) (appts : List Appointment) (av : DayAvailability)
    (s : String)
    (hav : staffMember.availability.lookup (dayNameOf date) = some av)
    (hs : s ∈ generateAvailableTimeSlots date staffMember service appts) :
    ∃ k, s = minutesToTime (timeToMinutes av.start + 30 * k) := by
  obtain ⟨k, hk, -⟩ :=
    mem_generateAvailableTimeSlots date staffMember service appts av s hav hs
  exact ⟨k, hk⟩

theorem claim_C7_witness :
    ∃ k, "09:00" = minutesToTime (timeToMinutes mondayAv.start + 30 * k) :=
  claim_C7 "2000-01-03" mondayStaff service60 [] mondayAv "09:00"
    (by decide) (by decide)

/-- Claim C7, counterexample to the stated minute-component property: a
well-formed start of a quarter past nine produces the slot at a quarter
past nine, whose minute component is neither zero nor thirty. -/
theorem claim_C7_cex :
    "09:15" ∈ generateAvailableTimeSlots "2000-01-03" quarterStaff service30 [] ∧
    ¬(timeToMinutes "09:15" % 60 = 0 ∨ timeToMinutes "09:15" % 60 = 30) := by
  decide

end timeSlotUtils
